import Mathlib

/-!
Verification development for `src/planfix.c`: a shallow embedding of the
directive store, the configuration compiler (`varForcedIndexAssign`), the
tokenizer (`SimpleStringSplit`) and the planning hook (`planfixHook`),
together with theorems about the behaviour the specification describes.

Modelling conventions:
* `Oid` is `Nat`, with `0` playing the role of `InvalidOid`.
* Relation kinds are collapsed to the three cases the C code distinguishes:
  `RELKIND_RELATION`, `RELKIND_INDEX`, and everything else (`other`).
* The external name-resolution collaborator (`RangeVarGetRelid` followed by
  `get_rel_relkind`) is an environment of two functions.
* PostgreSQL `List`s become Lean `List`s; `elog(ERROR, ...) / goto error`
  becomes an `Except` value.
-/

/-- Relation kinds as the C code distinguishes them: `RELKIND_RELATION`,
`RELKIND_INDEX`, and any other relkind. -/
inductive RelKind where
  | relation
  | index
  | other
deriving DecidableEq, Repr

/-- The external resolver: `resolveOid` models `RangeVarGetRelid` applied to
the parsed qualified name (returning `0` = `InvalidOid` for an unknown name),
and `relkind` models `get_rel_relkind`. -/
structure Env where
  resolveOid : String → Nat
  relkind : Nat → RelKind

/-- The `PlanfixOp` enum of the C source; it has the single member
`PLANFIX_OP_FORCEINDEX`. -/
inductive PlanfixOp where
  | forceIndex
deriving DecidableEq, Repr

/-- The `PlanfixDirective` struct: an operation, a relation oid and the list
of whitelisted indexes (`indices`). -/
structure PlanfixDirective where
  op : PlanfixOp
  relation : Nat
  indices : List Nat
deriving DecidableEq, Repr

/-- The scanning loop of `SimpleStringSplit`: walk the characters, collecting
the current run in `cur` (reversed); on a separator or at the end of the
input emit the run only when it is non-empty (`len > 0` in the C code). -/
def splitLoop (separator : Char) (cur : List Char) : List Char → List (List Char)
  | [] => if cur.isEmpty then [] else [cur.reverse]
  | c :: cs =>
    if c = separator then
      if cur.isEmpty then splitLoop separator [] cs
      else cur.reverse :: splitLoop separator [] cs
    else splitLoop separator (c :: cur) cs

/-- The function `SimpleStringSplit` of the C source: split `s` at `separator`, dropping
zero-length tokens. -/
def SimpleStringSplit (s : String) (separator : Char) : List String :=
  (splitLoop separator [] s.data).map (fun cs => String.mk cs)

/-- The compile-time error taxonomy; each constructor corresponds to one
`elog(ERROR, ...)` site in `varForcedIndexAssign` and carries the offending
name. -/
inductive CompileError where
  | unknownIdentifier : String → CompileError
  | multipleTablesInGroup : String → CompileError
  | indexBeforeTable : String → CompileError
  | unsupportedRelationKind : String → CompileError
deriving DecidableEq, Repr

/-- The inner `foreach (c2, section)` loop of `varForcedIndexAssign`: process
the items of one group, updating the pending directive `d`, stopping at the
first failing item. -/
def compileGroupLoop (env : Env) (d : PlanfixDirective) :
    List String → Except CompileError PlanfixDirective
  | [] => Except.ok d
  | name :: rest =>
    let oid := env.resolveOid name
    if oid = 0 then
      Except.error (CompileError.unknownIdentifier name)
    else
      match env.relkind oid with
      | RelKind.relation =>
        if d.relation ≠ 0 then Except.error (CompileError.multipleTablesInGroup name)
        else compileGroupLoop env { d with relation := oid } rest
      | RelKind.index =>
        if d.relation = 0 then Except.error (CompileError.indexBeforeTable name)
        else compileGroupLoop env { d with indices := d.indices ++ [oid] } rest
      | RelKind.other => Except.error (CompileError.unsupportedRelationKind name)

/-- Compile one group (one section of the configuration): split it on `','`
and run the item loop starting from the freshly allocated pending directive
`{op := FORCEINDEX, relation := InvalidOid, indices := NIL}`. -/
def compileGroup (env : Env) (s : String) : Except CompileError PlanfixDirective :=
  compileGroupLoop env ⟨PlanfixOp.forceIndex, 0, []⟩ (SimpleStringSplit s ',')

/-- The outer `foreach(c, sections)` loop: compile every section in order into
`tmpdirectives`, stopping at the first failing section. -/
def compileSections (env : Env) : List String → Except CompileError (List PlanfixDirective)
  | [] => Except.ok []
  | s :: rest =>
    match compileGroup env s with
    | Except.error e => Except.error e
    | Except.ok d =>
      match compileSections env rest with
      | Except.error e => Except.error e
      | Except.ok ds => Except.ok (d :: ds)

/-- The full compilation of a raw configuration string: split on `';'` into
sections and compile each. -/
def compile (env : Env) (rawname : String) : Except CompileError (List PlanfixDirective) :=
  compileSections env (SimpleStringSplit rawname ';')

/-- The assign hook `varForcedIndexAssign`, as a function on the global `directives` store.
The hook first deletes every stored directive whose op is
`PLANFIX_OP_FORCEINDEX`, then compiles `newval`; on success the new batch is
appended, on error the batch is freed and nothing is appended. -/
def varForcedIndexAssign (env : Env) (newval : String)
    (directives : List PlanfixDirective) : List PlanfixDirective :=
  let remaining := directives.filter (fun d => decide (d.op ≠ PlanfixOp.forceIndex))
  match compile env newval with
  | Except.ok tmpdirectives => remaining ++ tmpdirectives
  | Except.error _ => remaining

/-- One iteration of the `foreach (c, directives)` loop of `planfixHook`: if
the directive matches (`op == PLANFIX_OP_FORCEINDEX`, same relation oid,
non-NIL `indices`) and the opened relation's relkind is `RELKIND_RELATION`,
delete from the index list every entry whose oid is not in the whitelist
(`fordelete` + `list_delete_ptr`, i.e. a stable filter). -/
def forcedFilterStep (rk : Nat → RelKind) (relationObjectId : Nat)
    (indexlist : List Nat) (d : PlanfixDirective) : List Nat :=
  if d.op = PlanfixOp.forceIndex ∧ d.relation = relationObjectId ∧ d.indices ≠ [] then
    if rk relationObjectId = RelKind.relation then
      indexlist.filter (fun i => decide (i ∈ d.indices))
    else indexlist
  else indexlist

/-- The directive loop of `planfixHook`: fold `forcedFilterStep` over the
stored directives in order, threading `rel->indexlist`. -/
def planfixFilter (store : List PlanfixDirective) (rk : Nat → RelKind)
    (relationObjectId : Nat) (indexlist : List Nat) : List Nat :=
  store.foldl (forcedFilterStep rk relationObjectId) indexlist

/-- The hook `planfixHook` itself: run the directive loop on the candidate index list,
then, when a previously registered hook exists (`if (oldHook) ...`), call it
with the same relation oid and the now possibly shorter index list. -/
def planfixHook (store : List PlanfixDirective) (rk : Nat → RelKind)
    (oldHook : Option (Nat → List Nat → List Nat)) (relationObjectId : Nat)
    (indexlist : List Nat) : List Nat :=
  let il := planfixFilter store rk relationObjectId indexlist
  match oldHook with
  | Option.some h => h relationObjectId il
  | Option.none => il

/-- The mutable state `planfixHook` can see: the global `directives` list and,
for every relation oid, that relation's `rel->indexlist`. -/
structure PlannerState where
  directives : List PlanfixDirective
  indexlists : Nat → List Nat

/-- The hook `planfixHook` as a transformer of the planner state: it rewrites only the
index list of the relation it was invoked for (the C code mutates
`rel->indexlist` of the `rel` argument and reads, never writes, the global
`directives`), then chains to the previous hook when one is installed. -/
def planfixHookS (rk : Nat → RelKind)
    (oldHook : Option (Nat → PlannerState → PlannerState)) (relationObjectId : Nat)
    (st : PlannerState) : PlannerState :=
  let st1 : PlannerState :=
    { st with
      indexlists := fun u =>
        if u = relationObjectId then
          planfixFilter st.directives rk relationObjectId (st.indexlists relationObjectId)
        else st.indexlists u }
  match oldHook with
  | Option.some h => h relationObjectId st1
  | Option.none => st1

/-- Spec-side tokenizer, the runs between separator occurrences: written from
the spec's words, independently of `splitLoop`, for the refinement statement
of the tokenizer claim. Every separator occurrence ends a run, so empty runs
appear here and are dropped only afterwards in `splitSpec`. -/
def splitSpecRuns (separator : Char) : List Char → List (List Char)
  | [] => [[]]
  | c :: cs =>
    if c = separator then [] :: splitSpecRuns separator cs
    else (splitSpecRuns separator cs).modifyHead (fun r => c :: r)

/-- Spec-side contract of the tokenizer: the ordered sequence of maximal
non-empty runs of characters between separator occurrences, zero-length runs
silently dropped. -/
def splitSpec (s : String) (separator : Char) : List String :=
  ((splitSpecRuns separator s.data).filter (fun r => !r.isEmpty)).map
    (fun r => String.mk r)

/-- Discriminator used to state that a compilation result is the
index-before-table error (for some name). -/
def isIndexBeforeTable : Except CompileError (List PlanfixDirective) → Bool
  | Except.error (CompileError.indexBeforeTable _) => true
  | _ => false

/-- A concrete resolver environment used by the concrete witnesses:
`T1`, `T2` are plain tables (oids 1, 3), `I1`, `I2` are indexes (oids 2, 5),
`V` is some other relation kind (oid 4), everything else is unknown. -/
def env0 : Env where
  resolveOid := fun name =>
    if name = "T1" then 1
    else if name = "I1" then 2
    else if name = "T2" then 3
    else if name = "V" then 4
    else if name = "I2" then 5
    else 0
  relkind := fun oid =>
    if oid = 1 ∨ oid = 3 then RelKind.relation
    else if oid = 2 ∨ oid = 5 then RelKind.index
    else RelKind.other

/-- A concrete planner state used by the frame-property witness. -/
def st0 : PlannerState where
  directives := [⟨PlanfixOp.forceIndex, 1, [2]⟩]
  indexlists := fun u => if u = 1 then [2, 3] else [7]

/-- Applying `modifyHead` with the identity function changes nothing. -/
theorem modifyHead_self {α : Type} (L : List α) : L.modifyHead (fun r => r) = L := by
  cases L <;> simp

/-- The scanning loop agrees with the spec-side run decomposition: its output
is the runs of the remaining input, the first run extended on the left by the
characters accumulated so far, with empty runs dropped. -/
theorem splitLoop_eq (separator : Char) :
    ∀ (l acc : List Char),
      splitLoop separator acc l =
        ((splitSpecRuns separator l).modifyHead (fun r => acc.reverse ++ r)).filter
          (fun r => !r.isEmpty) := by
  intro l
  induction l with
  | nil =>
    intro acc
    cases acc with
    | nil => simp [splitLoop, splitSpecRuns]
    | cons a as => simp [splitLoop, splitSpecRuns]
  | cons c cs ih =>
    intro acc
    by_cases hc : c = separator
    · subst hc
      rw [splitLoop, if_pos rfl]
      rw [splitSpecRuns, if_pos rfl, List.modifyHead_cons]
      cases acc with
      | nil =>
        rw [ih []]
        simp [modifyHead_self]
      | cons a as =>
        rw [List.filter_cons]
        have hne : ((a :: as).reverse ++ []).isEmpty = false := by simp
        rw [ih []]
        simp [modifyHead_self]
    · rw [splitLoop, if_neg hc]
      rw [splitSpecRuns, if_neg hc, List.modifyHead_modifyHead, ih (c :: acc)]
      cases h : splitSpecRuns separator cs with
      | nil => simp
      | cons r rs =>
        simp [Function.comp, List.append_assoc]

/-- Every token produced by `SimpleStringSplit` is a non-empty string. -/
theorem mem_SimpleStringSplit_ne_empty (s : String) (c : Char) (tok : String)
    (h : tok ∈ SimpleStringSplit s c) : tok ≠ "" := by
  unfold SimpleStringSplit at h
  rcases List.mem_map.mp h with ⟨r, hr, rfl⟩
  rw [splitLoop_eq] at hr
  rcases List.mem_filter.mp hr with ⟨_, hne⟩
  intro heq
  have : r = [] := congrArg String.data heq
  subst this
  simp at hne

/-- Claim C4: the tokenizer returns the ordered sequence of maximal non-empty
runs of characters between separator occurrences, silently dropping
zero-length runs and requiring no trailing separator; concretely
`split("a,,b,", ',') = ["a","b"]`, `split("", ',') = []`, and
`split("x", ',') = ["x"]`. -/
theorem claim_C4 :
    (∀ (s : String) (separator : Char),
        SimpleStringSplit s separator = splitSpec s separator)
    ∧ SimpleStringSplit "a,,b," ',' = ["a", "b"]
    ∧ SimpleStringSplit "" ',' = ([] : List String)
    ∧ SimpleStringSplit "x" ',' = ["x"] := by
  refine ⟨fun s separator => ?_, by decide, rfl, by decide⟩
  unfold SimpleStringSplit splitSpec
  rw [splitLoop_eq]
  simp [modifyHead_self]

/-- The enum `PlanfixOp` has the single member `PLANFIX_OP_FORCEINDEX`. -/
theorem planfixOp_eq (o : PlanfixOp) : o = PlanfixOp.forceIndex := by
  cases o
  rfl

/-- A directive that does not govern `t`, or has an empty whitelist, leaves
the index list untouched. -/
theorem forcedFilterStep_no (rk : Nat → RelKind) (t : Nat) (il : List Nat)
    (d : PlanfixDirective) (h : ¬(d.relation = t ∧ d.indices ≠ [])) :
    forcedFilterStep rk t il d = il := by
  unfold forcedFilterStep
  rw [if_neg]
  rintro ⟨-, h2, h3⟩
  exact h ⟨h2, h3⟩

/-- A matching directive with non-empty whitelist, on a plain table, filters
the index list down to the whitelisted entries. -/
theorem forcedFilterStep_yes (rk : Nat → RelKind) (t : Nat) (il : List Nat)
    (d : PlanfixDirective) (h1 : d.relation = t) (h2 : d.indices ≠ [])
    (hrk : rk t = RelKind.relation) :
    forcedFilterStep rk t il d = il.filter (fun i => decide (i ∈ d.indices)) := by
  unfold forcedFilterStep
  rw [if_pos ⟨planfixOp_eq d.op, h1, h2⟩, if_pos hrk]

/-- Unfolding the directive loop one directive at a time. -/
theorem planfixFilter_cons (store : List PlanfixDirective) (rk : Nat → RelKind)
    (t : Nat) (il : List Nat) (d : PlanfixDirective) :
    planfixFilter (d :: store) rk t il =
      planfixFilter store rk t (forcedFilterStep rk t il d) := rfl

/-- When no stored directive both governs `t` and has a non-empty whitelist,
the directive loop leaves the index list unchanged. -/
theorem planfixFilter_no_match (rk : Nat → RelKind) (t : Nat) :
    ∀ (store : List PlanfixDirective),
      (∀ d ∈ store, ¬(d.relation = t ∧ d.indices ≠ [])) →
      ∀ il : List Nat, planfixFilter store rk t il = il := by
  intro store
  induction store with
  | nil => intro _ il; rfl
  | cons d rest ih =>
    intro h il
    rw [planfixFilter_cons, forcedFilterStep_no rk t il d (h d (List.mem_cons_self d rest))]
    exact ih (fun d' hd' => h d' (List.mem_cons_of_mem d hd')) il

/-- Filtering a list twice by the same predicate is the same as filtering it
once. -/
theorem filter_idem {α : Type} (p : α → Bool) (l : List α) :
    (l.filter p).filter p = l.filter p := by
  induction l with
  | nil => rfl
  | cons a l ih =>
    by_cases h : p a = true
    · simp [List.filter_cons, h, ih]
    · simp [List.filter_cons, h, ih]

/-- The directive loop only ever removes entries: its result is a sublist of
the input index list. -/
theorem planfixFilter_sublist (rk : Nat → RelKind) (t : Nat) :
    ∀ (store : List PlanfixDirective) (il : List Nat),
      (planfixFilter store rk t il).Sublist il := by
  intro store
  induction store with
  | nil => intro il; exact List.Sublist.refl il
  | cons d rest ih =>
    intro il
    rw [planfixFilter_cons]
    refine (ih (forcedFilterStep rk t il d)).trans ?_
    unfold forcedFilterStep
    split
    · split
      · exact List.filter_sublist il
      · exact List.Sublist.refl il
    · exact List.Sublist.refl il

/-- Membership in the directive-loop result, for a plain table: a candidate
survives exactly when it was a candidate and belongs to every non-empty
whitelist among the directives stored for that table. -/
theorem planfixFilter_mem_iff (rk : Nat → RelKind) (t : Nat)
    (hrk : rk t = RelKind.relation) :
    ∀ (store : List PlanfixDirective) (il : List Nat) (i : Nat),
      i ∈ planfixFilter store rk t il ↔
        i ∈ il ∧ ∀ d ∈ store, d.relation = t → d.indices ≠ [] → i ∈ d.indices := by
  intro store
  induction store with
  | nil => intro il i; simp [planfixFilter]
  | cons d rest ih =>
    intro il i
    rw [planfixFilter_cons]
    by_cases hmatch : d.relation = t ∧ d.indices ≠ []
    · rw [forcedFilterStep_yes rk t il d hmatch.1 hmatch.2 hrk, ih]
      simp only [List.mem_filter, decide_eq_true_eq, List.mem_cons]
      constructor
      · rintro ⟨⟨hi, hw⟩, hrest⟩
        exact ⟨hi, fun d' hd' => by
          rcases hd' with rfl | hd'
          · exact fun _ _ => hw
          · exact hrest d' hd'⟩
      · rintro ⟨hi, hall⟩
        exact ⟨⟨hi, hall d (Or.inl rfl) hmatch.1 hmatch.2⟩,
          fun d' hd' => hall d' (Or.inr hd')⟩
    · rw [forcedFilterStep_no rk t il d hmatch, ih]
      simp only [List.mem_cons]
      constructor
      · rintro ⟨hi, hrest⟩
        refine ⟨hi, fun d' hd' => ?_⟩
        rcases hd' with rfl | hd'
        · intro hr hw; exact absurd ⟨hr, hw⟩ hmatch
        · exact hrest d' hd'
      · rintro ⟨hi, hall⟩
        exact ⟨hi, fun d' hd' => hall d' (Or.inr hd')⟩

/-- When `d` is the only stored directive for its table, the directive loop
for that table is exactly one stable filter by membership in `d.indices`. -/
theorem planfixFilter_unique (rk : Nat → RelKind) (d : PlanfixDirective)
    (hW : d.indices ≠ []) (hrk : rk d.relation = RelKind.relation) :
    ∀ store : List PlanfixDirective, d ∈ store →
      (∀ d' ∈ store, d'.relation = d.relation → d' = d) →
      ∀ il : List Nat,
        planfixFilter store rk d.relation il =
          il.filter (fun i => decide (i ∈ d.indices)) := by
  intro store
  induction store with
  | nil => intro h; exact absurd h (List.not_mem_nil d)
  | cons d' rest ih =>
    intro hmem huniq il
    by_cases hrel : d'.relation = d.relation
    · have hd' : d' = d := huniq d' (List.mem_cons_self d' rest) hrel
      subst hd'
      rw [planfixFilter_cons, forcedFilterStep_yes rk d'.relation il d' rfl hW hrk]
      by_cases hdr : d' ∈ rest
      · rw [ih hdr (fun d'' h'' => huniq d'' (List.mem_cons_of_mem d' h''))
          (il.filter (fun i => decide (i ∈ d'.indices)))]
        exact filter_idem _ il
      · refine planfixFilter_no_match rk d'.relation rest ?_ _
        rintro d'' h'' ⟨h1, -⟩
        have : d'' = d' := huniq d'' (List.mem_cons_of_mem d' h'') h1
        exact hdr (this ▸ h'')
    · have hmem' : d ∈ rest := by
        rcases List.mem_cons.mp hmem with rfl | h
        · exact absurd rfl hrel
        · exact h
      rw [planfixFilter_cons, forcedFilterStep_no rk d.relation il d'
        (fun h => hrel h.1)]
      exact ih hmem' (fun d'' h'' => huniq d'' (List.mem_cons_of_mem d' h'')) il

/-- Claim C3: for a stored directive with table `T` and non-empty whitelist
`W` (the only directive for `T`), with `T` a plain table, the planning
filter keeps exactly the candidates whose oid is in `W`, in their original
order, and leaves the candidate list of any table with no directive
unchanged. -/
theorem claim_C3 (store : List PlanfixDirective) (rk : Nat → RelKind)
    (d : PlanfixDirective) (hmem : d ∈ store) (hW : d.indices ≠ [])
    (huniq : ∀ d' ∈ store, d'.relation = d.relation → d' = d)
    (hrk : rk d.relation = RelKind.relation) :
    (∀ cands : List Nat,
        planfixFilter store rk d.relation cands =
          cands.filter (fun i => decide (i ∈ d.indices)))
    ∧ ∀ (u : Nat) (candsU : List Nat), (∀ d' ∈ store, d'.relation ≠ u) →
        planfixFilter store rk u candsU = candsU :=
  ⟨fun cands => planfixFilter_unique rk d hW hrk store hmem huniq cands,
   fun u candsU hu =>
     planfixFilter_no_match rk u store (fun d' hd' h => hu d' hd' h.1) candsU⟩

/-- Witness for claim C3, the literal scenario of the spec: directive
`{table := 1, indexes := {2, 5}}` stored (next to one for table 3),
candidates `[2, 5, 4]` filter to `[2, 5]`; candidates `[9]` of the
unrelated table 7 are unchanged. -/
theorem claim_C3_witness :
    planfixFilter [⟨PlanfixOp.forceIndex, 1, [2, 5]⟩, ⟨PlanfixOp.forceIndex, 3, [2]⟩]
        env0.relkind 1 [2, 5, 4] = [2, 5]
    ∧ planfixFilter [⟨PlanfixOp.forceIndex, 1, [2, 5]⟩, ⟨PlanfixOp.forceIndex, 3, [2]⟩]
        env0.relkind 7 [9] = [9] := by
  have h := claim_C3
    [⟨PlanfixOp.forceIndex, 1, [2, 5]⟩, ⟨PlanfixOp.forceIndex, 3, [2]⟩]
    env0.relkind ⟨PlanfixOp.forceIndex, 1, [2, 5]⟩
    (by decide) (by decide) (by decide) (by decide)
  exact ⟨(h.1 [2, 5, 4]).trans (by decide), h.2 7 [9] (by decide)⟩

/-- Claim C5: when the store holds no directive for `t`, or only directives
for `t` whose whitelist is empty, the planning filter leaves the candidate
list completely unchanged (empty whitelist means no restriction). -/
theorem claim_C5 (store : List PlanfixDirective) (rk : Nat → RelKind) (t : Nat)
    (cands : List Nat) (h : ∀ d ∈ store, d.relation = t → d.indices = []) :
    planfixFilter store rk t cands = cands :=
  planfixFilter_no_match rk t store
    (fun d hd hc => hc.2 (h d hd hc.1)) cands

/-- Witness for claim C5: a directive for table 1 with empty whitelist and a
directive for another table leave table 1's candidates `[3, 4, 5]` as they
are. -/
theorem claim_C5_witness :
    planfixFilter [⟨PlanfixOp.forceIndex, 1, []⟩, ⟨PlanfixOp.forceIndex, 2, [3]⟩]
      env0.relkind 1 [3, 4, 5] = [3, 4, 5] :=
  claim_C5 [⟨PlanfixOp.forceIndex, 1, []⟩, ⟨PlanfixOp.forceIndex, 2, [3]⟩]
    env0.relkind 1 [3, 4, 5] (by decide)

/-- Claim C7: after its own filtering the hook delegates to the previously
registered hook, passing the same relation oid and the filtered (hence
sublist, possibly shorter) candidate list. -/
theorem claim_C7 (store : List PlanfixDirective) (rk : Nat → RelKind)
    (oldHook : Nat → List Nat → List Nat) (t : Nat) (cands : List Nat) :
    planfixHook store rk (Option.some oldHook) t cands =
      oldHook t (planfixFilter store rk t cands)
    ∧ (planfixFilter store rk t cands).Sublist cands :=
  ⟨rfl, planfixFilter_sublist rk t store cands⟩

/-- Claim C9: with several stored directives for the same plain table, every
matching directive is applied in store order, so a candidate survives exactly
when it belongs to every non-empty whitelist among that table's directives
(intersection semantics). -/
theorem claim_C9 (store : List PlanfixDirective) (rk : Nat → RelKind) (t : Nat)
    (cands : List Nat) (i : Nat) (hrk : rk t = RelKind.relation) :
    i ∈ planfixFilter store rk t cands ↔
      i ∈ cands ∧ ∀ d ∈ store, d.relation = t → d.indices ≠ [] → i ∈ d.indices :=
  planfixFilter_mem_iff rk t hrk store cands i

/-- Witness for claim C9: with whitelists `{2, 3}` and `{3, 4}` both stored
for table 1, candidate 3 survives exactly because it is in both. -/
theorem claim_C9_witness :
    env0.relkind 1 = RelKind.relation
    ∧ (3 ∈ planfixFilter
          [⟨PlanfixOp.forceIndex, 1, [2, 3]⟩, ⟨PlanfixOp.forceIndex, 1, [3, 4]⟩]
          env0.relkind 1 [2, 3, 4] ↔
        3 ∈ [2, 3, 4] ∧
          ∀ d ∈ ([⟨PlanfixOp.forceIndex, 1, [2, 3]⟩,
                  ⟨PlanfixOp.forceIndex, 1, [3, 4]⟩] : List PlanfixDirective),
            d.relation = 1 → d.indices ≠ [] → 3 ∈ d.indices) :=
  ⟨by decide,
   claim_C9 [⟨PlanfixOp.forceIndex, 1, [2, 3]⟩, ⟨PlanfixOp.forceIndex, 1, [3, 4]⟩]
     env0.relkind 1 [2, 3, 4] 3 (by decide)⟩

/-- Claim C10: the hook is read-only with respect to the directive store and
mutates only the candidate index list of the relation it was invoked for
(stated for the filter stage itself, i.e. with no previously registered hook
to chain to). -/
theorem claim_C10 (rk : Nat → RelKind) (t : Nat) (st : PlannerState) :
    (planfixHookS rk Option.none t st).directives = st.directives
    ∧ (planfixHookS rk Option.none t st).indexlists t =
        planfixFilter st.directives rk t (st.indexlists t)
    ∧ ∀ u : Nat, u ≠ t →
        (planfixHookS rk Option.none t st).indexlists u = st.indexlists u := by
  refine ⟨rfl, ?_, ?_⟩
  · simp [planfixHookS]
  · intro u hu
    simp [planfixHookS, hu]

/-- Witness for claim C10 at a concrete planner state: the store is untouched
and the index list of relation 2 is untouched by an invocation for
relation 1. -/
theorem claim_C10_witness :
    (planfixHookS env0.relkind Option.none 1 st0).directives = st0.directives
    ∧ (planfixHookS env0.relkind Option.none 1 st0).indexlists 2 = st0.indexlists 2 :=
  ⟨(claim_C10 env0.relkind 1 st0).1, (claim_C10 env0.relkind 1 st0).2.2 2 (by decide)⟩

/-- Since `PLANFIX_OP_FORCEINDEX` is the only op, the deletion pass at the
start of the assign hook removes every stored directive. -/
theorem filter_not_forceIndex (l : List PlanfixDirective) :
    l.filter (fun d => decide (d.op ≠ PlanfixOp.forceIndex)) = [] := by
  induction l with
  | nil => rfl
  | cons d rest ih =>
    have h : d.op = PlanfixOp.forceIndex := planfixOp_eq d.op
    simp [List.filter_cons, h, ih]

/-- Claim C1 (amended): when compilation of the new configuration fails, no
directive from the failed batch is installed, but the store is not left at
its prior value: the assign hook has already removed every stored
force-index directive, so the store is left empty. -/
theorem claim_C1 (env : Env) (s : String) (dirs : List PlanfixDirective)
    (e : CompileError) (h : compile env s = Except.error e) :
    varForcedIndexAssign env s dirs = [] := by
  simp [varForcedIndexAssign, h, filter_not_forceIndex]

/-- Witness for claim C1 (amended): a failing assignment empties a store that
held one directive. -/
theorem claim_C1_witness :
    compile env0 "BADNAME" = Except.error (CompileError.unknownIdentifier "BADNAME")
    ∧ varForcedIndexAssign env0 "BADNAME" [⟨PlanfixOp.forceIndex, 1, [2]⟩] = [] :=
  ⟨rfl, claim_C1 env0 "BADNAME" [⟨PlanfixOp.forceIndex, 1, [2]⟩]
    (CompileError.unknownIdentifier "BADNAME") rfl⟩

/-- Counterexample to claim C1 as stated: after the successful assignment of
`"T1,I1"` the store holds one directive; the failed assignment of
`"T1,I1;T2,BADNAME"` (the spec's own scenario) leaves the store empty, so the
previously stored directive is NOT still stored afterward. -/
theorem claim_C1_counterexample :
    varForcedIndexAssign env0 "T1,I1" [] = [⟨PlanfixOp.forceIndex, 1, [2]⟩]
    ∧ compile env0 "T1,I1;T2,BADNAME" =
        Except.error (CompileError.unknownIdentifier "BADNAME")
    ∧ varForcedIndexAssign env0 "T1,I1;T2,BADNAME"
        [⟨PlanfixOp.forceIndex, 1, [2]⟩] = []
    ∧ (⟨PlanfixOp.forceIndex, 1, [2]⟩ : PlanfixDirective) ∉
        ([] : List PlanfixDirective) :=
  ⟨rfl, rfl, rfl, by decide⟩

/-- Claim C2 (amended): an empty segment between two `';'` produces no group
at all (the tokenizer never yields an empty token), and a group consisting
only of commas compiles without error to an inert directive with no table
(`InvalidOid`) and an empty whitelist, which is installed but never changes
any candidate list during filtering. -/
theorem claim_C2 (env : Env) (s tok : String)
    (htok : tok ∈ SimpleStringSplit s ';') :
    tok ≠ ""
    ∧ compile env "," = Except.ok [⟨PlanfixOp.forceIndex, 0, []⟩]
    ∧ ∀ (rk : Nat → RelKind) (t : Nat) (il : List Nat),
        planfixFilter [⟨PlanfixOp.forceIndex, 0, []⟩] rk t il = il := by
  refine ⟨mem_SimpleStringSplit_ne_empty s ';' tok htok, rfl, fun rk t il => ?_⟩
  refine planfixFilter_no_match rk t _ ?_ il
  rintro d hd ⟨h1, h2⟩
  have hde := List.mem_singleton.mp hd
  subst hde
  exact h2 rfl

/-- Witness for claim C2 (amended) at concrete inputs. -/
theorem claim_C2_witness :
    ("ab" : String) ≠ ""
    ∧ compile env0 "," = Except.ok [⟨PlanfixOp.forceIndex, 0, []⟩]
    ∧ planfixFilter [⟨PlanfixOp.forceIndex, 0, []⟩] env0.relkind 0 [1, 2] = [1, 2] := by
  have h := claim_C2 env0 "ab;;c" "ab" (by decide)
  exact ⟨h.1, h.2.1, h.2.2 env0.relkind 0 [1, 2]⟩

/-- Counterexample to claim C2 as stated: the configuration `","` is one
group that splits to zero items, yet assigning it installs one (inert)
directive — the group does contribute a directive to the installed set. -/
theorem claim_C2_counterexample :
    SimpleStringSplit "," ',' = ([] : List String)
    ∧ varForcedIndexAssign env0 "," [] = [⟨PlanfixOp.forceIndex, 0, []⟩]
    ∧ varForcedIndexAssign env0 "," [] ≠ ([] : List PlanfixDirective) :=
  ⟨rfl, rfl, by decide⟩

/-- Claim C8: assigning the same valid configuration twice yields exactly the
store of assigning it once, and hence the same filtering behaviour on every
candidate list. -/
theorem claim_C8 (env : Env) (s : String) (dirs ds : List PlanfixDirective)
    (h : compile env s = Except.ok ds) :
    varForcedIndexAssign env s (varForcedIndexAssign env s dirs) =
      varForcedIndexAssign env s dirs
    ∧ ∀ (rk : Nat → RelKind) (t : Nat) (cands : List Nat),
        planfixFilter (varForcedIndexAssign env s (varForcedIndexAssign env s dirs))
            rk t cands =
          planfixFilter (varForcedIndexAssign env s dirs) rk t cands := by
  have hone : varForcedIndexAssign env s dirs = ds := by
    simp [varForcedIndexAssign, h, filter_not_forceIndex]
  have htwo : varForcedIndexAssign env s (varForcedIndexAssign env s dirs) = ds := by
    simp [varForcedIndexAssign, h, filter_not_forceIndex]
  refine ⟨htwo.trans hone.symm, fun rk t cands => ?_⟩
  rw [htwo, hone]

/-- Witness for claim C8: assigning `"T1,I1"` twice equals assigning it once,
starting from a store holding an unrelated directive. -/
theorem claim_C8_witness :
    varForcedIndexAssign env0 "T1,I1"
        (varForcedIndexAssign env0 "T1,I1" [⟨PlanfixOp.forceIndex, 3, [5]⟩]) =
      varForcedIndexAssign env0 "T1,I1" [⟨PlanfixOp.forceIndex, 3, [5]⟩] :=
  (claim_C8 env0 "T1,I1" [⟨PlanfixOp.forceIndex, 3, [5]⟩]
    [⟨PlanfixOp.forceIndex, 1, [2]⟩] rfl).1

/-- In a fresh group (no table seen yet), a first item that does not resolve
to a plain table makes the item loop fail immediately: unknown name, index
with no table yet, or unsupported relkind. -/
theorem compileGroupLoop_head_not_table (env : Env) (x : String) (rest : List String)
    (h : env.relkind (env.resolveOid x) ≠ RelKind.relation) :
    ∃ e, compileGroupLoop env ⟨PlanfixOp.forceIndex, 0, []⟩ (x :: rest) =
      Except.error e := by
  by_cases h0 : env.resolveOid x = 0
  · exact ⟨CompileError.unknownIdentifier x, by simp [compileGroupLoop, h0]⟩
  · cases hk : env.relkind (env.resolveOid x) with
    | relation => exact absurd hk h
    | index =>
      exact ⟨CompileError.indexBeforeTable x, by simp [compileGroupLoop, h0, hk]⟩
    | other =>
      exact ⟨CompileError.unsupportedRelationKind x, by simp [compileGroupLoop, h0, hk]⟩

/-- A group whose first item resolves (to a known oid) of kind index fails
with exactly the index-before-table error, naming that item. -/
theorem compileGroup_index_head (env : Env) (g name : String) (rest : List String)
    (hsplit : SimpleStringSplit g ',' = name :: rest)
    (h0 : env.resolveOid name ≠ 0)
    (hk : env.relkind (env.resolveOid name) = RelKind.index) :
    compileGroup env g = Except.error (CompileError.indexBeforeTable name) := by
  unfold compileGroup
  rw [hsplit]
  simp [compileGroupLoop, h0, hk]

/-- If a group that fails occurs among the sections, the whole section loop
fails (all-or-nothing: the first failing group aborts compilation). -/
theorem compileSections_mem_error (env : Env) :
    ∀ (sections : List String) (g : String), g ∈ sections →
      (∃ e, compileGroup env g = Except.error e) →
      ∃ e, compileSections env sections = Except.error e := by
  intro sections
  induction sections with
  | nil => intro g hg; exact absurd hg (List.not_mem_nil g)
  | cons s rest ih =>
    intro g hg herr
    rcases List.mem_cons.mp hg with rfl | hg'
    · rcases herr with ⟨e, he⟩
      exact ⟨e, by simp [compileSections, he]⟩
    · cases hcs : compileGroup env s with
      | error e => exact ⟨e, by simp [compileSections, hcs]⟩
      | ok d =>
        rcases ih g hg' herr with ⟨e, he⟩
        exact ⟨e, by simp [compileSections, hcs, he]⟩

/-- The item loop only ever appends to the whitelist: every index already in
the pending directive is in the successfully compiled directive. -/
theorem compileGroupLoop_indices_mono (env : Env) :
    ∀ (items : List String) (d d' : PlanfixDirective),
      compileGroupLoop env d items = Except.ok d' →
      ∀ i ∈ d.indices, i ∈ d'.indices := by
  intro items
  induction items with
  | nil =>
    intro d d' h i hi
    simp [compileGroupLoop] at h
    subst h
    exact hi
  | cons x rest ih =>
    intro d d' h i hi
    rw [compileGroupLoop] at h
    by_cases h0 : env.resolveOid x = 0
    · simp [h0] at h
    · cases hk : env.relkind (env.resolveOid x) with
      | relation =>
        simp [h0, hk] at h
        by_cases hrel : d.relation = 0
        · simp [hrel] at h
          exact ih _ d' h i hi
        · simp [hrel] at h
      | index =>
        simp [h0, hk] at h
        by_cases hrel : d.relation = 0
        · simp [hrel] at h
        · simp [hrel] at h
          exact ih _ d' h i (List.mem_append.mpr (Or.inl hi))
      | other => simp [h0, hk] at h

/-- When the item loop succeeds, every item of kind index that it processed
has its oid in the resulting directive's whitelist. -/
theorem compileGroupLoop_index_mem (env : Env) :
    ∀ (items : List String) (d d' : PlanfixDirective) (name : String),
      name ∈ items →
      env.relkind (env.resolveOid name) = RelKind.index →
      compileGroupLoop env d items = Except.ok d' →
      env.resolveOid name ∈ d'.indices := by
  intro items
  induction items with
  | nil => intro d d' name h; exact absurd h (List.not_mem_nil name)
  | cons x rest ih =>
    intro d d' name hmem hk h
    rw [compileGroupLoop] at h
    by_cases h0 : env.resolveOid x = 0
    · simp [h0] at h
    · rcases List.mem_cons.mp hmem with rfl | hmem'
      · simp [h0, hk] at h
        by_cases hrel : d.relation = 0
        · simp [hrel] at h
        · simp [hrel] at h
          exact compileGroupLoop_indices_mono env rest _ d' h _
            (List.mem_append.mpr (Or.inr (List.mem_singleton.mpr rfl)))
      · cases hkx : env.relkind (env.resolveOid x) with
        | relation =>
          simp [h0, hkx] at h
          by_cases hrel : d.relation = 0
          · simp [hrel] at h
            exact ih _ d' name hmem' hk h
          · simp [hrel] at h
        | index =>
          simp [h0, hkx] at h
          by_cases hrel : d.relation = 0
          · simp [hrel] at h
          · simp [hrel] at h
            exact ih _ d' name hmem' hk h
        | other => simp [h0, hkx] at h

/-- Claim C6 (amended): a group in which an item of kind index appears before
any item of kind table always makes the whole compilation fail (the
assignment is rejected); the reported error is `IndexBeforeTable`, naming the
item, when that item is the first of its group (as in `"I1,T1"`) — an
earlier failing item reports its own error instead; and when a table item
does precede it, the index's oid is added to that directive's whitelist. -/
theorem claim_C6 :
    (∀ (env : Env) (s g : String) (pre : List String) (name : String)
        (post : List String),
        g ∈ SimpleStringSplit s ';' →
        SimpleStringSplit g ',' = pre ++ name :: post →
        env.relkind (env.resolveOid name) = RelKind.index →
        (∀ x ∈ pre, env.relkind (env.resolveOid x) ≠ RelKind.relation) →
        ∃ e, compile env s = Except.error e)
    ∧ (∀ (env : Env) (g name : String) (rest : List String),
        SimpleStringSplit g ',' = name :: rest →
        env.resolveOid name ≠ 0 →
        env.relkind (env.resolveOid name) = RelKind.index →
        compileGroup env g = Except.error (CompileError.indexBeforeTable name))
    ∧ (∀ (env : Env) (items : List String) (d d' : PlanfixDirective)
        (name : String),
        name ∈ items →
        env.relkind (env.resolveOid name) = RelKind.index →
        compileGroupLoop env d items = Except.ok d' →
        env.resolveOid name ∈ d'.indices) := by
  refine ⟨fun env s g pre name post hg hsplit hk hpre => ?_,
    compileGroup_index_head, compileGroupLoop_index_mem⟩
  refine compileSections_mem_error env _ g hg ?_
  unfold compileGroup
  rw [hsplit]
  cases pre with
  | nil =>
    exact compileGroupLoop_head_not_table env name post (by simp [hk])
  | cons x pre' =>
    rw [List.cons_append]
    exact compileGroupLoop_head_not_table env x (pre' ++ name :: post)
      (hpre x (List.mem_cons_self x pre'))

/-- Witness for claim C6 (amended) on the spec's example `"I1,T1"` and on the
well-ordered group `"T1,I1"`. -/
theorem claim_C6_witness :
    (∃ e, compile env0 "I1,T1" = Except.error e)
    ∧ compileGroup env0 "I1,T1" = Except.error (CompileError.indexBeforeTable "I1")
    ∧ env0.resolveOid "I1" ∈
        (⟨PlanfixOp.forceIndex, 1, [2]⟩ : PlanfixDirective).indices := by
  refine ⟨claim_C6.1 env0 "I1,T1" "I1,T1" [] "I1" ["T1"] (by decide) (by decide)
      (by decide) (by intro x hx; exact absurd hx (List.not_mem_nil x)),
    claim_C6.2.1 env0 "I1,T1" "I1" ["T1"] (by decide) (by decide) (by decide),
    claim_C6.2.2 env0 ["T1", "I1"] ⟨PlanfixOp.forceIndex, 0, []⟩
      ⟨PlanfixOp.forceIndex, 1, [2]⟩ "I1" (by decide) (by decide) rfl⟩

/-- Counterexample to claim C6 as stated: in `"V,I1,T1"` (with `V` resolving
to a view-like relkind) the index item `I1` appears before any table item,
yet compilation fails with the unsupported-relkind error for `V`, not with
`IndexBeforeTable`. -/
theorem claim_C6_counterexample :
    compile env0 "V,I1,T1" = Except.error (CompileError.unsupportedRelationKind "V")
    ∧ isIndexBeforeTable (compile env0 "V,I1,T1") = false
    ∧ env0.relkind (env0.resolveOid "I1") = RelKind.index
    ∧ env0.relkind (env0.resolveOid "V") ≠ RelKind.relation
    ∧ env0.relkind (env0.resolveOid "T1") = RelKind.relation :=
  ⟨rfl, rfl, by decide, by decide, by decide⟩
